import Mathlib

/-! The catalog service of `store.go` and the writer of `interface1/main.go`,
of the repository go-notes.

The two programs are embedded shallowly.  A Go string is the list of its
bytes, a `float32` is its IEEE-754 bit pattern, a Go map is the list of its
entries in the order one `range` loop visits them, and an
`http.ResponseWriter` is the sequence of method calls made on it.  The parts
of Go's standard library the handlers call (`fmt` verbs `%s`, `%q`, `%.2f`,
`net/url` query parsing, `unicode/utf8`) are modelled function by function,
under the names they have in Go, as they behave in current Go releases (a
semicolon in a query is an error, a query of more than 10000 pairs is refused,
U+007F is quoted as `\x7f`).
-/

namespace GoNotes

/-! ## Strings and UTF-8 -/

/-- A Go string: an immutable sequence of bytes, each below 256. -/
abbrev GoString := List Nat

/-- The replacement rune U+FFFD, `utf8.RuneError`. -/
def RuneError : Nat := 0xFFFD

/-- The largest Unicode code point, `utf8.MaxRune`. -/
def MaxRune : Nat := 0x10FFFF

/-- `utf8.AppendRune(nil, r)`: the UTF-8 encoding of rune `r`; a surrogate or
out-of-range rune is encoded as `RuneError`. -/
def AppendRune (r : Nat) : GoString :=
  if r ≤ 0x7F then [r]
  else if r ≤ 0x7FF then [0xC0 ||| (r >>> 6), 0x80 ||| (r &&& 0x3F)]
  else
    let r := if r > MaxRune ∨ (0xD800 ≤ r ∧ r ≤ 0xDFFF) then RuneError else r
    if r ≤ 0xFFFF then
      [0xE0 ||| (r >>> 12), 0x80 ||| ((r >>> 6) &&& 0x3F), 0x80 ||| (r &&& 0x3F)]
    else
      [0xF0 ||| (r >>> 18), 0x80 ||| ((r >>> 12) &&& 0x3F),
        0x80 ||| ((r >>> 6) &&& 0x3F), 0x80 ||| (r &&& 0x3F)]

/-- A string literal of the Go source, as the bytes of its UTF-8 encoding. -/
def lit (s : String) : GoString :=
  s.data.flatMap fun c => AppendRune c.toNat

/-! ## float32 formatting: `%.2f` -/

/-- The type `dollars` of store.go, a `float32`, held as its IEEE-754 binary32
bit pattern: bit 31 the sign, bits 30..23 the biased exponent, bits 22..0 the
fraction. -/
structure dollars where
  bits : Nat
deriving DecidableEq

namespace dollars

/-- Sign bit. -/
def neg (d : dollars) : Bool := d.bits / 2 ^ 31 % 2 == 1

/-- Biased exponent field. -/
def expField (d : dollars) : Nat := d.bits / 2 ^ 23 % 256

/-- Fraction field. -/
def fracField (d : dollars) : Nat := d.bits % 2 ^ 23

/-- Neither an infinity nor a NaN. -/
def isFinite (d : dollars) : Bool := d.expField != 255

/-- Significand of a finite value: the fraction, with the hidden bit for a
normal number. -/
def mant (d : dollars) : Nat :=
  if d.expField = 0 then d.fracField else d.fracField + 2 ^ 23

/-- Exponent of a finite value, biased so that the magnitude is
`mant * 2 ^ exp / 2 ^ 150`. -/
def exp (d : dollars) : Nat :=
  if d.expField = 0 then 1 else d.expField

/-- Magnitude of a finite value, as an exact rational. -/
def magnitude (d : dollars) : ℚ := (d.mant : ℚ) * 2 ^ d.exp / 2 ^ 150

/-- Left shifts of the significand `m` until its hidden bit `2 ^ 23` is set,
the exponent `e` lowered by one at each shift. -/
def normalize : Nat → Nat → Nat → Nat × Nat
  | 0, m, e => (m, e)
  | fuel + 1, m, e => if 2 ^ 23 ≤ m then (m, e) else normalize fuel (2 * m) (e - 1)

/-- The conversion of an untyped integer constant to `float32`, exact for
constants below `2 ^ 24` (as `50` and `4` in `main`): `n = n * 2 ^ 150 / 2 ^ 150`,
normalized. -/
def ofConst (n : Nat) : dollars :=
  if n = 0 then ⟨0⟩
  else ⟨(normalize 23 n 150).2 * 2 ^ 23 + ((normalize 23 n 150).1 - 2 ^ 23)⟩

end dollars

/-- Rounding of `num / den` to the nearest integer, a tie going to the even
neighbour: the rounding of `strconv`'s exact decimal conversion. -/
def roundHalfEven (num den : Nat) : Nat :=
  let q := num / den
  let r := num % den
  if den < 2 * r ∨ (2 * r = den ∧ q % 2 = 1) then q + 1 else q

/-- Decimal digits of `n`, most significant first, by repeated division;
`fuel` bounds the number of digits. -/
def decimalDigitsAux : Nat → Nat → GoString
  | 0, _ => []
  | fuel + 1, n =>
    if n < 10 then [48 + n] else decimalDigitsAux fuel (n / 10) ++ [48 + n % 10]

/-- Decimal digits of `n`, most significant first, `0` as the single digit
`0`. -/
def decimalDigits (n : Nat) : GoString := decimalDigitsAux (n + 1) n

/-- The last `prec` decimal digits of `n`, zero-padded on the left. -/
def fracDigits : Nat → Nat → GoString
  | 0, _ => []
  | prec + 1, n => fracDigits prec (n / 10) ++ [48 + n % 10]

/-- Fixed notation `%f` of the integer `n` counted in units of `10 ^ -prec`:
integer part, and a point followed by `prec` digits when `prec > 0`. -/
def fmtF (prec n : Nat) : GoString :=
  decimalDigits (n / 10 ^ prec) ++
    (if prec = 0 then [] else 46 :: fracDigits prec (n % 10 ^ prec))

/-- `strconv.AppendFloat(nil, float64(d), 'f', prec, 32)`: `NaN`, `+Inf`,
`-Inf`, or the sign and the exact value rounded half-to-even to `prec`
fractional digits. -/
def FormatFloat (d : dollars) (prec : Nat) : GoString :=
  if d.expField = 255 then
    if d.fracField ≠ 0 then lit "NaN"
    else if d.neg then lit "-Inf" else lit "+Inf"
  else
    (if d.neg then [45] else []) ++
      fmtF prec (roundHalfEven (d.mant * 2 ^ d.exp * 10 ^ prec) (2 ^ 150))

/-- The verb `%.<prec>f` of package fmt without flags, `(*fmt).fmtFloat`.
The text `num` of `strconv.AppendFloat` gets a `+` in front unless it starts
with a sign; an infinity is printed with its sign, a NaN without, and a number
with its sign only when that is `-`. -/
def fmtFloat (d : dollars) (prec : Nat) : GoString :=
  let num := FormatFloat d prec
  let num := if num[0]? = some 45 ∨ num[0]? = some 43 then num else 43 :: num
  if num[1]? = some 73 then num
  else if num[1]? = some 78 then num.tail
  else if num[0]? = some 43 then num.tail
  else num

/-- The method `dollars.String`:
`func (d dollars) String() string { return fmt.Sprintf("$%.2f", d) }`. -/
def dollars.String (d : dollars) : GoString := lit "$" ++ fmtFloat d 2

/-! ## `unicode/utf8` decoding and `strconv.Quote`: the verb `%q` -/

/-- Entry of utf8's table `first` for a leading byte `b ≥ 0x80`: the size of
the encoding and the accepted range of its second byte, `none` for a byte
that starts no encoding. -/
def first (b : Nat) : Option (Nat × Nat × Nat) :=
  if 0xC2 ≤ b ∧ b ≤ 0xDF then some (2, 0x80, 0xBF)
  else if b = 0xE0 then some (3, 0xA0, 0xBF)
  else if (0xE1 ≤ b ∧ b ≤ 0xEC) ∨ b = 0xEE ∨ b = 0xEF then some (3, 0x80, 0xBF)
  else if b = 0xED then some (3, 0x80, 0x9F)
  else if b = 0xF0 then some (4, 0x90, 0xBF)
  else if 0xF1 ≤ b ∧ b ≤ 0xF3 then some (4, 0x80, 0xBF)
  else if b = 0xF4 then some (4, 0x80, 0x8F)
  else none

/-- `utf8.DecodeRuneInString(s)`: the first rune of `s` and its width in
bytes; `(RuneError, 1)` on an invalid encoding, `(RuneError, 0)` on the empty
string. -/
def DecodeRuneInString : GoString → Nat × Nat
  | [] => (RuneError, 0)
  | s0 :: rest =>
    if s0 < 0x80 then (s0, 1)
    else match first s0 with
      | none => (RuneError, 1)
      | some (sz, lo, hi) =>
        if rest.length + 1 < sz then (RuneError, 1)
        else match rest with
          | [] => (RuneError, 1)
          | s1 :: rest1 =>
            if s1 < lo ∨ hi < s1 then (RuneError, 1)
            else if sz ≤ 2 then (((s0 &&& 0x1F) <<< 6) ||| (s1 &&& 0x3F), 2)
            else match rest1 with
              | [] => (RuneError, 1)
              | s2 :: rest2 =>
                if s2 < 0x80 ∨ 0xBF < s2 then (RuneError, 1)
                else if sz ≤ 3 then
                  (((s0 &&& 0x0F) <<< 12) ||| ((s1 &&& 0x3F) <<< 6) ||| (s2 &&& 0x3F), 3)
                else match rest2 with
                  | [] => (RuneError, 1)
                  | s3 :: _ =>
                    if s3 < 0x80 ∨ 0xBF < s3 then (RuneError, 1)
                    else
                      (((s0 &&& 0x07) <<< 18) ||| ((s1 &&& 0x3F) <<< 12) |||
                        ((s2 &&& 0x3F) <<< 6) ||| (s3 &&& 0x3F), 4)

/-- The digit `"0123456789abcdef"[n]`. -/
def lowerhex (n : Nat) : Nat := if n < 10 then 48 + n else 87 + n

/-- `strconv.IsPrint(r)`.  Runes up to U+00FF are decided as in the Go source;
above, Go searches its tables isPrint16, isNotPrint16, isPrint32 and
isNotPrint32, which enter as the parameter `table`. -/
def IsPrint (table : Nat → Bool) (r : Nat) : Bool :=
  if r ≤ 0xFF then
    if 0x20 ≤ r ∧ r ≤ 0x7E then true
    else if 0xA1 ≤ r ∧ r ≤ 0xFF then r != 0xAD
    else false
  else table r

/-- `strconv.appendEscapedRune(nil, r, '"', false, false)`: the text of rune
`r` inside a double-quoted Go string literal. -/
def appendEscapedRune (table : Nat → Bool) (r : Nat) : GoString :=
  if r = 34 ∨ r = 92 then [92, r]
  else if IsPrint table r then AppendRune r
  else if r = 7 then [92, 97]
  else if r = 8 then [92, 98]
  else if r = 12 then [92, 102]
  else if r = 10 then [92, 110]
  else if r = 13 then [92, 114]
  else if r = 9 then [92, 116]
  else if r = 11 then [92, 118]
  else if r < 32 ∨ r = 0x7F then [92, 120, lowerhex (r >>> 4), lowerhex (r &&& 0xF)]
  else
    let r := if r > MaxRune ∨ (0xD800 ≤ r ∧ r ≤ 0xDFFF) then 0xFFFD else r
    if r < 0x10000 then
      [92, 117, lowerhex ((r >>> 12) &&& 0xF), lowerhex ((r >>> 8) &&& 0xF),
        lowerhex ((r >>> 4) &&& 0xF), lowerhex (r &&& 0xF)]
    else
      [92, 85, lowerhex ((r >>> 28) &&& 0xF), lowerhex ((r >>> 24) &&& 0xF),
        lowerhex ((r >>> 20) &&& 0xF), lowerhex ((r >>> 16) &&& 0xF),
        lowerhex ((r >>> 12) &&& 0xF), lowerhex ((r >>> 8) &&& 0xF),
        lowerhex ((r >>> 4) &&& 0xF), lowerhex (r &&& 0xF)]

/-- The loop of `strconv.appendQuotedWith`,
`for width := 0; len(s) > 0; s = s[width:]`: at each rune boundary the rune
is decoded and escaped; `skip` counts the bytes of the current rune still to
be stepped over (the `width - 1` continuation bytes). -/
def quoteLoop (table : Nat → Bool) : Nat → GoString → GoString
  | _, [] => []
  | skip + 1, _ :: rest => quoteLoop table skip rest
  | 0, s0 :: rest =>
    let rw := if s0 ≥ 0x80 then DecodeRuneInString (s0 :: rest) else (s0, 1)
    (if rw.2 = 1 ∧ rw.1 = RuneError then
        [92, 120, lowerhex (s0 >>> 4), lowerhex (s0 &&& 0xF)]
      else appendEscapedRune table rw.1) ++ quoteLoop table (rw.2 - 1) rest

/-- `strconv.Quote(s)`, which is what the verb `%q` prints for a string: a
double-quoted Go string literal. -/
def Quote (table : Nat → Bool) (s : GoString) : GoString :=
  34 :: quoteLoop table 0 s ++ [34]

/-! ## `net/url`: the query of a request -/

/-- `url.ishex`. -/
def ishex (c : Nat) : Bool :=
  (48 ≤ c ∧ c ≤ 57) ∨ (97 ≤ c ∧ c ≤ 102) ∨ (65 ≤ c ∧ c ≤ 70)

/-- `url.unhex`. -/
def unhex (c : Nat) : Nat :=
  if 48 ≤ c ∧ c ≤ 57 then c - 48
  else if 97 ≤ c ∧ c ≤ 102 then c - 97 + 10
  else if 65 ≤ c ∧ c ≤ 70 then c - 65 + 10
  else 0

/-- The errors of `url.ParseQuery`: `url.EscapeError(s)`,
`invalid semicolon separator in query` and
`number of URL query parameters exceeded limit`. -/
inductive error where
  | EscapeError (s : GoString)
  | semicolon
  | paramLimit
deriving DecidableEq

/-- `url.QueryUnescape(s)`, that is `unescape(s, encodeQueryComponent)`: `%XX`
becomes the byte `0xXX`, `+` becomes a space, and a `%` not followed by two
hexadecimal digits is an `EscapeError` carrying at most three bytes from the
`%` on.  Go checks the escapes in a first pass and decodes in a second; both
are one traversal here. -/
def QueryUnescape : GoString → Except error GoString
  | [] => .ok []
  | c :: rest =>
    if c = 37 then
      match rest with
      | a :: b :: rest2 =>
        if ishex a ∧ ishex b then
          match QueryUnescape rest2 with
          | .ok t => .ok ((unhex a <<< 4 ||| unhex b) :: t)
          | .error e => .error e
        else .error (.EscapeError [37, a, b])
      | _ => .error (.EscapeError (37 :: rest))
    else
      match QueryUnescape rest with
      | .ok t => .ok ((if c = 43 then 32 else c) :: t)
      | .error e => .error e

/-- `strings.Cut(s, sep)` for a one-byte separator: the text before the first
`sep`, the text after it, and whether `sep` occurs. -/
def Cut (sep : Nat) : GoString → GoString × GoString × Bool
  | [] => ([], [], false)
  | c :: rest =>
    if c = sep then ([], rest, true)
    else ((c :: (Cut sep rest).1), (Cut sep rest).2.1, (Cut sep rest).2.2)

/-- `url.Values`, a `map[string][]string`, held as the sequence of its
`(key, value)` insertions: `m[key] = append(m[key], value)` appends a pair. -/
abbrev Values := List (GoString × GoString)

/-- The map index `v[key]`: the values inserted under `key`, in order. -/
def Values.index (v : Values) (key : GoString) : List GoString :=
  (v.filter fun kv => kv.1 = key).map Prod.snd

/-- `Values.Get(key)`: the first value of `key`, or the empty string. -/
def Values.Get (v : Values) (key : GoString) : GoString :=
  match v.index key with
  | [] => []
  | x :: _ => x

/-- The loop of `url.parseQuery(m, query)`, `for query != ""`, with the map
`m` and the error `err` so far.  Each round cuts one `&`-separated pair off
`query`, so `fuel = len(query)` rounds are enough. -/
def parseQueryLoop : Nat → Values → Option error → GoString → Values × Option error
  | 0, m, err, _ => (m, err)
  | fuel + 1, m, err, query =>
    if query = [] then (m, err)
    else
      let key := (Cut 38 query).1
      let query := (Cut 38 query).2.1
      if 59 ∈ key then parseQueryLoop fuel m (some .semicolon) query
      else if key = [] then parseQueryLoop fuel m err query
      else
        let value := (Cut 61 key).2.1
        let key := (Cut 61 key).1
        match QueryUnescape key with
        | .error err1 => parseQueryLoop fuel m (if err = none then some err1 else err) query
        | .ok key =>
          match QueryUnescape value with
          | .error err1 =>
            parseQueryLoop fuel m (if err = none then some err1 else err) query
          | .ok value => parseQueryLoop fuel (m ++ [(key, value)]) err query

/-- `strings.Count(s, sep)` for a one-byte separator: the number of `sep` in
`s`. -/
def Count (sep : Nat) : GoString → Nat
  | [] => 0
  | c :: rest => (if c = sep then 1 else 0) + Count sep rest

/-- `url.defaultMaxParams`. -/
def defaultMaxParams : Nat := 10000

/-- `url.urlParamsWithinMax(params)` when the GODEBUG setting
`urlmaxqueryparams` is not set: `params <= defaultMaxParams`. -/
def urlParamsWithinMax (params : Nat) : Bool := params ≤ defaultMaxParams

/-- `url.parseQuery(m, query)`: a query of more than `defaultMaxParams` pairs,
counted as `strings.Count(query, "&") + 1`, is refused with `m` untouched;
otherwise the loop over the pairs runs. -/
def parseQuery (m : Values) (query : GoString) : Values × Option error :=
  if urlParamsWithinMax (Count 38 query + 1) then parseQueryLoop query.length m none query
  else (m, some .paramLimit)

/-- `url.ParseQuery(query)`, `m := make(Values); err := parseQuery(m, query)`:
the values of the well-formed pairs and the first error met (a semicolon
error replaces any earlier one), or no value and the limit error. -/
def ParseQuery (query : GoString) : Values × Option error :=
  parseQuery [] query

/-- The part of `url.URL` the handlers read. -/
structure URL where
  RawQuery : GoString
deriving DecidableEq

/-- `(*URL).Query()`: `v, _ := ParseQuery(u.RawQuery); return v`, the error
dropped. -/
def URL.Query (u : URL) : Values := (ParseQuery u.RawQuery).1

/-- The part of `http.Request` the handlers read. -/
structure Request where
  URL : URL
deriving DecidableEq

/-! ## `http.ResponseWriter` -/

/-- A method call on an `http.ResponseWriter`. -/
inductive Call where
  | WriteHeader (statusCode : Nat)
  | Write (p : GoString)
deriving DecidableEq

/-- An `http.ResponseWriter`, as the calls made on it so far, oldest first. -/
abbrev ResponseWriter := List Call

/-- `http.StatusNotFound`. -/
def StatusNotFound : Nat := 404

/-- `http.StatusOK`. -/
def StatusOK : Nat := 200

/-- `w.WriteHeader(statusCode)`. -/
def ResponseWriter.WriteHeader (w : ResponseWriter) (statusCode : Nat) : ResponseWriter :=
  w ++ [Call.WriteHeader statusCode]

/-- `fmt.Fprintf(w, ...)` once the verbs are expanded to `text`: one call
`w.Write(text)`. -/
def Fprintf (w : ResponseWriter) (text : GoString) : ResponseWriter :=
  w ++ [Call.Write text]

/-- The status line of the response: the code of a `WriteHeader` call that
comes first, and otherwise `200`, which net/http sends at the first `Write`
or at the return of the handler. -/
def ResponseWriter.status : ResponseWriter → Nat
  | Call.WriteHeader statusCode :: _ => statusCode
  | _ => StatusOK

/-- The body of the response: the bytes of the `Write` calls, in order. -/
def ResponseWriter.body : ResponseWriter → GoString
  | [] => []
  | Call.Write p :: w => p ++ ResponseWriter.body w
  | Call.WriteHeader _ :: w => ResponseWriter.body w

/-- The explicit `WriteHeader` calls, in order. -/
def ResponseWriter.headerCalls : ResponseWriter → List Nat
  | [] => []
  | Call.WriteHeader statusCode :: w => statusCode :: ResponseWriter.headerCalls w
  | Call.Write _ :: w => ResponseWriter.headerCalls w

/-! ## store.go -/

/-- `type database map[string]dollars`: the entries of the map, in the order
in which a `range` loop visits them (an order Go leaves unspecified, so a
statement about a map holds for every order of its entries). -/
abbrev database := List (GoString × dollars)

/-- Keys of a Go map are distinct. -/
def database.WellFormed (db : database) : Prop := (db.map Prod.fst).Nodup

/-- The map index `price, ok := db[item]`; `none` stands for `ok == false`. -/
def database.get (db : database) (item : GoString) : Option dollars :=
  match db with
  | [] => none
  | (k, v) :: rest => if k = item then some v else database.get rest item

/-- The catalog of `main`: `db := database{"shoes": 50, "socks": 4}`. -/
def mainDb : database :=
  [(lit "shoes", dollars.ofConst 50), (lit "socks", dollars.ofConst 4)]

/-- The handler `index`, line 24:
`fmt.Fprintf(w, "Status: OK")`.
A handler maps the catalog and the response writer before the call to the
catalog and the response writer after it. -/
def index (db : database) (w : ResponseWriter) (_req : Request) :
    database × ResponseWriter :=
  (db, Fprintf w (lit "Status: OK"))

/-- The handler `database.list`, line 28:
`for item, price := range db { fmt.Fprintf(w, "%s: %s\n", item, price) }`;
the verb `%s` prints `price` through its `String` method. -/
def database.list (db : database) (w : ResponseWriter) (_req : Request) :
    database × ResponseWriter :=
  (db, db.foldl
    (fun w entry => Fprintf w (entry.1 ++ lit ": " ++ entry.2.String ++ lit "\n")) w)

/-- The handler `database.price`, line 35:
`item := req.URL.Query().Get("item")`, then `price, ok := db[item]`; when
`!ok`, `w.WriteHeader(http.StatusNotFound)` and
`fmt.Fprintf(w, "No such item: %q\n", item)`; otherwise
`fmt.Fprintf(w, "%s\n", price)`. -/
def database.price (table : Nat → Bool) (db : database) (w : ResponseWriter)
    (req : Request) : database × ResponseWriter :=
  let item := req.URL.Query.Get (lit "item")
  match db.get item with
  | none =>
    (db, Fprintf (w.WriteHeader StatusNotFound)
      (lit "No such item: " ++ Quote table item ++ lit "\n"))
  | some price => (db, Fprintf w (price.String ++ lit "\n"))

/-- A request whose URL has the raw query `q`. -/
def request (q : String) : Request := ⟨⟨lit q⟩⟩

/-! ## interface1/main.go -/

/-- `type ByteCounter int`. -/
abbrev ByteCounter := Int

/-- The method `(*ByteCounter).Write`, line 10, on the state it can reach: the
counter `*c` and the process's standard output.
`fmt.Println("test")`, then `return len(p), nil`.
The result is the counter and standard output afterwards, and the returned
pair; `none` is the `nil` error. -/
def ByteCounter.Write (c : ByteCounter) (stdout : GoString) (p : GoString) :
    ByteCounter × GoString × Int × Option error :=
  (c, stdout ++ lit "test\n", (p.length : Int), none)

/-- The function `main` of interface1/main.go, line 15, from an empty standard
output: `b = 23`, `name := "m"`, then `fmt.Fprintf(&b, "hello, %s", name)`,
which formats its arguments and calls `b.Write` once with the text.  The
result is `b` and standard output at the end.  (The local `c` of line 18 is
declared and never used, which the Go compiler refuses; the model is of the
statements that act.) -/
def Interface1.main : ByteCounter × GoString :=
  let b : ByteCounter := 23
  let name := lit "m"
  let r := ByteCounter.Write b [] (lit "hello, " ++ name)
  (r.1, r.2.1)

/-! ## Reading a response back -/

/-- The lines of a text: the runs of bytes between newlines, each newline
ending one line; bytes after the last newline form a last line. -/
def lines : GoString → List GoString
  | [] => []
  | c :: rest =>
    if c = 10 then [] :: lines rest
    else match lines rest with
      | [] => [[c]]
      | l :: ls => (c :: l) :: ls

/-- The number a run of decimal digits denotes. -/
def readDecimal (ds : GoString) : Nat :=
  ds.foldl (fun acc c => 10 * acc + (c - 48)) 0


/-! ## Reading a raw query as its pairs -/

/-- The `&`-separated pairs of a raw query, `strings.Split(query, "&")`. -/
def splitPairs : GoString → List GoString
  | [] => [[]]
  | c :: rest =>
    if c = 38 then [] :: splitPairs rest
    else match splitPairs rest with
      | [] => [[c]]
      | s :: ss => (c :: s) :: ss

/-- The raw query of a list of pairs, `strings.Join(pairs, "&")`. -/
def joinPairs : List GoString → GoString
  | [] => []
  | [s] => s
  | s :: t :: rest => s ++ 38 :: joinPairs (t :: rest)

/-- Whether `url.ParseQuery` reports no error on the pair `s`. -/
def wellFormedPair (s : GoString) : Bool := (ParseQuery s).2 = none

/-! ## Auxiliary definitions of the proofs -/

/-- The hundredths that `%.2f` prints for a finite value: its magnitude times
one hundred, rounded. -/
def hundredths (d : dollars) : Nat :=
  roundHalfEven (d.mant * 2 ^ d.exp * 10 ^ 2) (2 ^ 150)

/-- One round of the loop of `url.parseQuery` on the pair `key`, as a map on
the state `(m, err)`. -/
def pairStep (m : Values) (err : Option error) (key : GoString) : Values × Option error :=
  if 59 ∈ key then (m, some .semicolon)
  else if key = [] then (m, err)
  else
    match QueryUnescape (Cut 61 key).1 with
    | .error err1 => (m, if err = none then some err1 else err)
    | .ok k =>
      match QueryUnescape (Cut 61 key).2.1 with
      | .error err1 => (m, if err = none then some err1 else err)
      | .ok v => (m ++ [(k, v)], err)

/-- The loop of `url.parseQuery` run to its end from the state `(m, err)`. -/
def runQuery (m : Values) (err : Option error) (query : GoString) : Values × Option error :=
  parseQueryLoop query.length m err query

/-- The loop of `url.parseQuery` on a whole query, from the empty map: what
`url.ParseQuery` returns for a query within the limit on the number of
pairs. -/
def parsePairs (query : GoString) : Values × Option error :=
  runQuery [] none query

/-! ## Decimal digits and rounding -/

/-- Reading one more digit. -/
theorem readDecimal_append_singleton (ds : GoString) (c : Nat) :
    readDecimal (ds ++ [c]) = 10 * readDecimal ds + (c - 48) := by
  simp [readDecimal, List.foldl_append]

/-- With more fuel than `n`, the digits of `n` are a non-empty run of decimal
digits that reads back as `n`, and starts with `0` only for `n = 0`. -/
theorem decimalDigitsAux_spec : ∀ (fuel n : Nat), n < fuel →
    decimalDigitsAux fuel n ≠ [] ∧ (∀ c ∈ decimalDigitsAux fuel n, 48 ≤ c ∧ c ≤ 57) ∧
    readDecimal (decimalDigitsAux fuel n) = n ∧
    ((decimalDigitsAux fuel n).head? = some 48 → n = 0) := by
  intro fuel
  induction fuel with
  | zero => intro n h; omega
  | succ fuel ih =>
    intro n hn
    by_cases h10 : n < 10
    · simp only [decimalDigitsAux, if_pos h10]
      refine ⟨by simp, ?_, ?_, ?_⟩
      · intro c hc
        simp only [List.mem_singleton] at hc
        omega
      · simp [readDecimal]
      · intro h
        simp only [List.head?_cons, Option.some.injEq] at h
        omega
    · simp only [decimalDigitsAux, if_neg h10]
      obtain ⟨hne, hd, hv, hz⟩ := ih (n / 10) (by omega)
      refine ⟨by simp, ?_, ?_, ?_⟩
      · intro c hc
        rcases List.mem_append.mp hc with hc | hc
        · exact hd c hc
        · simp only [List.mem_singleton] at hc
          omega
      · rw [readDecimal_append_singleton, hv]
        omega
      · intro h
        rw [List.head?_append_of_ne_nil _ hne] at h
        have := hz h
        omega

/-- The fuel of `decimalDigits` is enough. -/
theorem decimalDigits_spec (n : Nat) :
    decimalDigits n ≠ [] ∧ (∀ c ∈ decimalDigits n, 48 ≤ c ∧ c ≤ 57) ∧
    readDecimal (decimalDigits n) = n ∧ ((decimalDigits n).head? = some 48 → n = 0) :=
  decimalDigitsAux_spec (n + 1) n (Nat.lt_succ_self n)

/-- The two fractional digits. -/
theorem fracDigits_two (n : Nat) : fracDigits 2 n = [48 + n / 10 % 10, 48 + n % 10] := by
  simp [fracDigits]

/-- The rounded quotient is within one half of `num / den`. -/
theorem roundHalfEven_spec (num den : Nat) (hden : 0 < den) :
    2 * (roundHalfEven num den * den) ≤ 2 * num + den ∧
    2 * num ≤ 2 * (roundHalfEven num den * den) + den := by
  have hdm := Nat.div_add_mod num den
  have hlt := Nat.mod_lt num hden
  have hmul : den * (num / den) = num / den * den := Nat.mul_comm _ _
  unfold roundHalfEven
  simp only
  split_ifs with h
  · rw [Nat.add_mul]
    rcases h with h | ⟨h, _⟩ <;> omega
  · have h1 : ¬ den < 2 * (num % den) := fun hh => h (Or.inl hh)
    omega

/-! ## The shape of `%.2f` -/

/-- Half a unit on the hundredths is half a hundredth on the value. -/
theorem round_accuracy (m n D : Nat) (hD : 0 < D)
    (h1 : 2 * (n * D) ≤ 2 * (m * 10 ^ 2) + D) (h2 : 2 * (m * 10 ^ 2) ≤ 2 * (n * D) + D) :
    |(n : ℚ) / 100 - (m : ℚ) / D| ≤ 1 / 200 := by
  have hDq : (0 : ℚ) < D := by exact_mod_cast hD
  have h1q : (2 : ℚ) * (n * D) ≤ 2 * (m * 10 ^ 2) + D := by exact_mod_cast h1
  have h2q : (2 : ℚ) * (m * 10 ^ 2) ≤ 2 * (n * D) + D := by exact_mod_cast h2
  have key : (n : ℚ) / 100 - (m : ℚ) / D = (n * D - m * 100) / (100 * D) := by
    field_simp
    ring
  rw [key, abs_le]
  constructor
  · rw [le_div_iff₀ (by positivity)]
    nlinarith
  · rw [div_le_iff₀ (by positivity)]
    nlinarith

/-- The text of `strconv.AppendFloat` for a finite value and precision 2. -/
theorem FormatFloat_finite (d : dollars) (hfin : d.isFinite = true) :
    FormatFloat d 2 = (if d.neg then [45] else []) ++ decimalDigits (hundredths d / 100) ++
      [46, 48 + hundredths d % 100 / 10 % 10, 48 + hundredths d % 100 % 10] := by
  have hexp : d.expField ≠ 255 := by
    simpa [dollars.isFinite] using hfin
  simp [FormatFloat, hexp, fmtF, fracDigits_two, hundredths]

/-- The verb `%.2f` on a finite value: sign, digits, point, two digits. -/
theorem fmtFloat_finite (d : dollars) (hfin : d.isFinite = true) :
    fmtFloat d 2 = (if d.neg then [45] else []) ++ decimalDigits (hundredths d / 100) ++
      [46, 48 + hundredths d % 100 / 10 % 10, 48 + hundredths d % 100 % 10] := by
  obtain ⟨hne, hdig, -, -⟩ := decimalDigits_spec (hundredths d / 100)
  unfold fmtFloat
  rw [FormatFloat_finite d hfin]
  cases hds : decimalDigits (hundredths d / 100) with
  | nil => exact absurd hds hne
  | cons c ip =>
    have hc := hdig c (by rw [hds]; exact List.mem_cons_self _ _)
    have h45 : c ≠ 45 := by omega
    have h43 : c ≠ 43 := by omega
    have h73 : c ≠ 73 := by omega
    have h78 : c ≠ 78 := by omega
    cases hneg : d.neg <;> simp [h45, h43, h73, h78]

/-- The verb `%.2f` on a NaN and on the infinities. -/
theorem fmtFloat_not_finite (d : dollars) (hfin : d.isFinite = false) :
    fmtFloat d 2 = if d.fracField ≠ 0 then lit "NaN" else if d.neg then lit "-Inf" else lit "+Inf" := by
  have hexp : d.expField = 255 := by
    simpa [dollars.isFinite] using hfin
  unfold fmtFloat FormatFloat
  simp only [hexp, if_true]
  by_cases hf : d.fracField ≠ 0
  · simp only [if_pos hf]; decide
  · simp only [if_neg hf]
    cases d.neg
    · decide
    · decide

/-- No price is rendered with a newline. -/
theorem String_no_newline (d : dollars) : 10 ∉ d.String := by
  unfold dollars.String
  cases hfin : d.isFinite
  · rw [fmtFloat_not_finite d hfin]
    by_cases hf : d.fracField ≠ 0
    · simp only [if_pos hf]; decide
    · simp only [if_neg hf]
      cases d.neg <;> decide
  · rw [fmtFloat_finite d hfin]
    obtain ⟨-, hdig, -, -⟩ := decimalDigits_spec (hundredths d / 100)
    intro h
    have h36 : lit "$" = [36] := by decide
    rw [h36] at h
    simp only [List.mem_append, List.mem_cons, List.mem_singleton, List.not_mem_nil,
      or_false] at h
    rcases h with h | (h | h) | h
    · omega
    · cases d.neg
      · simp at h
      · simp at h
    · have := hdig 10 h
      omega
    · omega

/-! ## The query loop -/

/-- One round of the loop on a non-empty query. -/
theorem parseQueryLoop_succ (fuel : Nat) (m : Values) (err : Option error) (query : GoString)
    (hq : query ≠ []) :
    parseQueryLoop (fuel + 1) m err query =
      parseQueryLoop fuel (pairStep m err (Cut 38 query).1).1
        (pairStep m err (Cut 38 query).1).2 (Cut 38 query).2.1 := by
  rw [parseQueryLoop]
  simp only [if_neg hq, pairStep]
  by_cases h1 : 59 ∈ (Cut 38 query).1
  · simp only [if_pos h1]
  · simp only [if_neg h1]
    by_cases h2 : (Cut 38 query).1 = []
    · simp only [if_pos h2]
    · simp only [if_neg h2]
      cases hk : QueryUnescape (Cut 61 (Cut 38 query).1).1 with
      | error e => rfl
      | ok k =>
        cases hv : QueryUnescape (Cut 61 (Cut 38 query).1).2.1 with
        | error e => rfl
        | ok v => rfl

/-- What remains after a cut is shorter than a non-empty text. -/
theorem Cut_length (sep : Nat) (s : GoString) : (Cut sep s).2.1.length ≤ s.length - 1 := by
  induction s with
  | nil => simp [Cut]
  | cons c rest ih =>
    simp only [Cut]
    split_ifs
    · simp
    · simp only [List.length_cons, Nat.add_sub_cancel]
      omega

/-- The loop ends on the empty query. -/
theorem parseQueryLoop_nil (fuel : Nat) (m : Values) (err : Option error) :
    parseQueryLoop fuel m err [] = (m, err) := by
  cases fuel <;> simp [parseQueryLoop]

/-- Fuel beyond the length of the query changes nothing. -/
theorem parseQueryLoop_fuel : ∀ (fuel : Nat) (m : Values) (err : Option error) (query : GoString),
    query.length ≤ fuel → parseQueryLoop fuel m err query = parseQueryLoop query.length m err query := by
  intro fuel
  induction fuel using Nat.strong_induction_on with
  | _ fuel ih =>
    intro m err query hlen
    cases query with
    | nil => simp [parseQueryLoop_nil]
    | cons c rest =>
      cases fuel with
      | zero => simp at hlen
      | succ fuel =>
        have hcut := Cut_length 38 (c :: rest)
        simp only [List.length_cons, Nat.add_sub_cancel] at hcut hlen
        rw [List.length_cons, parseQueryLoop_succ _ _ _ _ (List.cons_ne_nil _ _),
          parseQueryLoop_succ _ _ _ _ (List.cons_ne_nil _ _)]
        rw [ih fuel (Nat.lt_succ_self _) _ _ _ (by omega)]
        by_cases hr : rest.length = fuel
        · rw [hr]; rw [ih fuel (Nat.lt_succ_self _) _ _ _ (by omega)]
        · rw [ih rest.length (by omega) _ _ _ hcut]

/-- The loop ends on the empty query, with the state it has. -/
theorem runQuery_nil (m : Values) (err : Option error) : runQuery m err [] = (m, err) := by
  simp [runQuery, parseQueryLoop_nil]

/-- On a non-empty query the loop does one round on the first pair and goes on
with the rest: with `runQuery_nil`, the equations of the Go loop, so the fuel
of `ParseQuery` never runs out. -/
theorem runQuery_step (m : Values) (err : Option error) (query : GoString) (hq : query ≠ []) :
    runQuery m err query =
      runQuery (pairStep m err (Cut 38 query).1).1 (pairStep m err (Cut 38 query).1).2
        (Cut 38 query).2.1 := by
  cases query with
  | nil => exact absurd rfl hq
  | cons c rest =>
    have hcut := Cut_length 38 (c :: rest)
    simp only [List.length_cons, Nat.add_sub_cancel] at hcut
    unfold runQuery
    rw [List.length_cons, parseQueryLoop_succ _ _ _ _ hq, parseQueryLoop_fuel _ _ _ _ hcut]

/-- A cut of a text that holds the separator. -/
theorem Cut_append (sep : Nat) (a b : GoString) :
    Cut sep (a ++ sep :: b) =
      if (Cut sep a).2.2 then ((Cut sep a).1, (Cut sep a).2.1 ++ sep :: b, true)
      else (a, b, true) := by
  induction a with
  | nil => simp [Cut]
  | cons c rest ih =>
    simp only [List.cons_append, Cut]
    by_cases hc : c = sep
    · simp [hc]
    · simp only [if_neg hc, ih]
      split_ifs <;> simp_all

/-- A cut that finds no separator returns the whole text. -/
theorem Cut_not_found (sep : Nat) (a : GoString) (h : (Cut sep a).2.2 = false) :
    Cut sep a = (a, [], false) := by
  induction a with
  | nil => simp [Cut]
  | cons c rest ih =>
    simp only [Cut] at h ⊢
    by_cases hc : c = sep
    · simp [hc] at h
    · simp only [if_neg hc] at h ⊢
      rw [ih h]

/-- The loop on `a&b` is the loop on `a` followed by the loop on `b`. -/
theorem runQuery_append : ∀ (n : Nat) (a b : GoString) (m : Values) (err : Option error),
    a.length ≤ n →
    runQuery m err (a ++ 38 :: b) = runQuery (runQuery m err a).1 (runQuery m err a).2 b := by
  intro n
  induction n with
  | zero =>
    intro a b m err ha
    have : a = [] := List.length_eq_zero.mp (Nat.le_zero.mp ha)
    subst this
    rw [runQuery_nil, List.nil_append, runQuery_step _ _ _ (List.cons_ne_nil _ _)]
    simp [Cut, pairStep]
  | succ n ih =>
    intro a b m err ha
    by_cases hnil : a = []
    · subst hnil
      rw [runQuery_nil, List.nil_append, runQuery_step _ _ _ (List.cons_ne_nil _ _)]
      simp [Cut, pairStep]
    · have hne : a ++ 38 :: b ≠ [] := by simp
      rw [runQuery_step _ _ _ hne, runQuery_step m err a hnil, Cut_append]
      cases hf : (Cut 38 a).2.2
      · simp only [Bool.false_eq_true, if_false]
        rw [Cut_not_found 38 a hf, runQuery_nil]
      · simp only [if_true]
        have hcut := Cut_length 38 a
        have hpos : 0 < a.length := List.length_pos.mpr hnil
        exact ih _ _ _ _ (by omega)

/-! ## Writes and lines -/

/-- A loop of `Fprintf` calls appends one `Write` per element. -/
theorem foldl_Fprintf (f : GoString × dollars → GoString) (db : database) (w : ResponseWriter) :
    db.foldl (fun w entry => Fprintf w (f entry)) w = w ++ db.map (fun entry => Call.Write (f entry)) := by
  induction db generalizing w with
  | nil => simp
  | cons e rest ih =>
    rw [List.foldl_cons, ih]
    simp [Fprintf]

/-- The body of two runs of calls. -/
theorem body_append (w w' : ResponseWriter) :
    ResponseWriter.body (w ++ w') = ResponseWriter.body w ++ ResponseWriter.body w' := by
  induction w with
  | nil => simp [ResponseWriter.body]
  | cons c rest ih =>
    cases c <;> simp [ResponseWriter.body, ih]

/-- The body of a run of writes. -/
theorem body_writes (texts : List GoString) :
    ResponseWriter.body (texts.map Call.Write) = texts.flatten := by
  induction texts with
  | nil => simp [ResponseWriter.body]
  | cons t rest ih => simp [ResponseWriter.body, ih]

/-- A newline ends the line before it. -/
theorem lines_line (l t : GoString) (hl : 10 ∉ l) : lines (l ++ 10 :: t) = l :: lines t := by
  induction l with
  | nil => simp [lines]
  | cons c rest ih =>
    have hc : c ≠ 10 := fun h => hl (by simp [h])
    have hrest : 10 ∉ rest := fun h => hl (List.mem_cons_of_mem _ h)
    simp [lines, hc, ih hrest]

/-- Texts without newline, each followed by a newline, are the lines of their
concatenation. -/
theorem lines_flatten (ls : List GoString) (h : ∀ l ∈ ls, 10 ∉ l) :
    lines (ls.map (fun l => l ++ [10])).flatten = ls := by
  induction ls with
  | nil => simp [lines]
  | cons l rest ih =>
    simp only [List.map_cons, List.flatten_cons, List.append_assoc, List.singleton_append]
    rw [lines_line _ _ (h l (List.mem_cons_self _ _)),
      ih (fun l' hl' => h l' (List.mem_cons_of_mem _ hl'))]

/-! ## Pairs of a query, quoting, permutations of two entries -/

/-- A cut of a text without the separator. -/
theorem Cut_of_not_mem (sep : Nat) (a : GoString) (h : sep ∉ a) : Cut sep a = (a, [], false) := by
  induction a with
  | nil => simp [Cut]
  | cons c rest ih =>
    have hc : c ≠ sep := fun hh => h (by simp [hh])
    have hrest : sep ∉ rest := fun hh => h (List.mem_cons_of_mem _ hh)
    simp [Cut, hc, ih hrest]

/-- The values a round adds do not depend on the state. -/
theorem pairStep_values (m : Values) (err : Option error) (key : GoString) :
    (pairStep m err key).1 = m ++ (pairStep [] none key).1 := by
  unfold pairStep
  by_cases h1 : 59 ∈ key
  · simp [h1]
  · by_cases h2 : key = []
    · simp [h2]
    · simp only [if_neg h1, if_neg h2]
      cases QueryUnescape (Cut 61 key).1 with
      | error e => simp
      | ok k =>
        cases QueryUnescape (Cut 61 key).2.1 with
        | error e => simp
        | ok v => simp

/-- A round that reports an error adds no value and leaves the error set; a
set error stays set. -/
theorem pairStep_error (m : Values) (err : Option error) (key : GoString) :
    ((pairStep [] none key).2 ≠ none → (pairStep m err key).2 ≠ none ∧ (pairStep [] none key).1 = []) ∧
    (err ≠ none → (pairStep m err key).2 ≠ none) := by
  unfold pairStep
  by_cases h1 : 59 ∈ key
  · simp [h1]
  · by_cases h2 : key = []
    · simp [h2]
    · simp only [if_neg h1, if_neg h2]
      cases QueryUnescape (Cut 61 key).1 with
      | error e => 
        refine ⟨fun _ => ⟨?_, rfl⟩, fun h => ?_⟩
        · simp only; split_ifs with h <;> simp [h]
        · simp [h]
      | ok k =>
        cases QueryUnescape (Cut 61 key).2.1 with
        | error e =>
          refine ⟨fun _ => ⟨?_, rfl⟩, fun h => ?_⟩
          · simp only; split_ifs with h <;> simp [h]
          · simp [h]
        | ok v => simp

/-- The values the loop adds do not depend on the state. -/
theorem runQuery_values : ∀ (n : Nat) (query : GoString) (m : Values) (err : Option error),
    query.length ≤ n → (runQuery m err query).1 = m ++ (runQuery [] none query).1 := by
  intro n
  induction n with
  | zero =>
    intro query m err h
    have : query = [] := List.length_eq_zero.mp (Nat.le_zero.mp h)
    subst this
    simp [runQuery_nil]
  | succ n ih =>
    intro query m err h
    by_cases hnil : query = []
    · subst hnil; simp [runQuery_nil]
    · have hcut := Cut_length 38 query
      have hpos : 0 < query.length := List.length_pos.mpr hnil
      rw [runQuery_step m err query hnil, runQuery_step [] none query hnil,
        ih _ _ _ (by omega), ih _ (pairStep [] none _).1 _ (by omega), pairStep_values m err,
        List.append_assoc]

/-- A set error stays set to the end of the loop. -/
theorem runQuery_error_persists : ∀ (n : Nat) (query : GoString) (m : Values) (err : Option error),
    query.length ≤ n → err ≠ none → (runQuery m err query).2 ≠ none := by
  intro n
  induction n with
  | zero =>
    intro query m err h herr
    have : query = [] := List.length_eq_zero.mp (Nat.le_zero.mp h)
    subst this
    simpa [runQuery_nil] using herr
  | succ n ih =>
    intro query m err h herr
    by_cases hnil : query = []
    · subst hnil; simpa [runQuery_nil] using herr
    · have hcut := Cut_length 38 query
      have hpos : 0 < query.length := List.length_pos.mpr hnil
      rw [runQuery_step m err query hnil]
      exact ih _ _ _ (by omega) ((pairStep_error m err _).2 herr)

/-- On a text without `&` the loop is one round. -/
theorem runQuery_pair (m : Values) (err : Option error) (seg : GoString) (hseg : 38 ∉ seg) :
    runQuery m err seg = pairStep m err seg := by
  by_cases hnil : seg = []
  · subst hnil; simp [runQuery_nil, pairStep]
  · rw [runQuery_step m err seg hnil, Cut_of_not_mem 38 seg hseg, runQuery_nil]

/-- The loop on a whole query is the loop from the empty state. -/
theorem parsePairs_eq (query : GoString) : parsePairs query = runQuery [] none query := rfl

/-- The values of a query are those of its parts around an `&`. -/
theorem Query_append (a b : GoString) :
    (parsePairs (a ++ 38 :: b)).1 = (parsePairs a).1 ++ (parsePairs b).1 := by
  rw [parsePairs_eq, parsePairs_eq, parsePairs_eq, runQuery_append a.length a b [] none le_rfl,
    runQuery_values b.length b _ _ le_rfl]

/-- A malformed pair has no values. -/
theorem parsePairs_malformed_pair (seg : GoString) (hseg : 38 ∉ seg)
    (hbad : (parsePairs seg).2 ≠ none) : (parsePairs seg).1 = [] := by
  rw [parsePairs_eq, runQuery_pair _ _ _ hseg] at hbad ⊢
  exact ((pairStep_error [] none seg).1 hbad).2

/-- Printable ASCII other than `"` and `\` is quoted unchanged. -/
theorem quoteLoop_printable (table : Nat → Bool) (k : GoString)
    (h : ∀ c ∈ k, 32 ≤ c ∧ c ≤ 126 ∧ c ≠ 34 ∧ c ≠ 92) : quoteLoop table 0 k = k := by
  induction k with
  | nil => rfl
  | cons c rest ih =>
    obtain ⟨h1, h2, h3, h4⟩ := h c (List.mem_cons_self _ _)
    have hrest := ih (fun c' hc' => h c' (List.mem_cons_of_mem _ hc'))
    have hlt : ¬ c ≥ 128 := by omega
    have hre : c ≠ RuneError := by unfold RuneError; omega
    have hp : IsPrint table c = true := by
      unfold IsPrint
      simp [show c ≤ 255 by omega, h1, h2]
    have ha : AppendRune c = [c] := by
      unfold AppendRune
      simp [show c ≤ 127 by omega]
    simp [quoteLoop, hlt, hre, appendEscapedRune, h3, h4, hp, ha, hrest]

/-- ASCII is quoted byte by byte. -/
theorem quoteLoop_ascii (table : Nat → Bool) (k : GoString) (h : ∀ c ∈ k, c < 128) :
    quoteLoop table 0 k = k.flatMap (appendEscapedRune table) := by
  induction k with
  | nil => rfl
  | cons c rest ih =>
    have h1 := h c (List.mem_cons_self _ _)
    have hrest := ih (fun c' hc' => h c' (List.mem_cons_of_mem _ hc'))
    have hlt : ¬ c ≥ 128 := by omega
    have hre : c ≠ RuneError := by unfold RuneError; omega
    simp [quoteLoop, hlt, hre, hrest]

/-- The two orders of two entries. -/
theorem perm_pair {α : Type} (a b : α) (l : List α) (h : l.Perm [a, b]) :
    l = [a, b] ∨ l = [b, a] := by
  have hlen := h.length_eq
  match l, hlen with
  | [x, y], _ =>
    have hx : x ∈ [a, b] := h.subset (List.mem_cons_self _ _)
    simp only [List.mem_cons, List.mem_singleton, List.not_mem_nil, or_false] at hx
    rcases hx with rfl | rfl
    · left
      have := (List.perm_cons x).1 h
      rw [List.perm_singleton] at this
      rw [this]
    · right
      have h2 : [x, y].Perm [x, a] := h.trans (List.Perm.swap _ _ _)
      have := (List.perm_cons x).1 h2
      rw [List.perm_singleton] at this
      rw [this]

/-! ## A query and its pairs -/

/-- A query has at least one pair. -/
theorem splitPairs_ne_nil (raw : GoString) : splitPairs raw ≠ [] := by
  cases raw with
  | nil => simp [splitPairs]
  | cons c rest =>
    simp only [splitPairs]
    split_ifs
    · simp
    · cases splitPairs rest <;> simp

/-- Joining a pair in front of others. -/
theorem joinPairs_cons (s : GoString) (ss : List GoString) (h : ss ≠ []) :
    joinPairs (s :: ss) = s ++ 38 :: joinPairs ss := by
  cases ss with
  | nil => exact absurd rfl h
  | cons t rest => rfl

/-- A raw query is its pairs, joined. -/
theorem joinPairs_splitPairs (raw : GoString) : joinPairs (splitPairs raw) = raw := by
  induction raw with
  | nil => rfl
  | cons c rest ih =>
    simp only [splitPairs]
    by_cases hc : c = 38
    · rw [if_pos hc, joinPairs_cons _ _ (splitPairs_ne_nil rest), ih, hc]
      rfl
    · rw [if_neg hc]
      cases hs : splitPairs rest with
      | nil => exact absurd hs (splitPairs_ne_nil rest)
      | cons s ss =>
        rw [hs] at ih
        cases ss with
        | nil =>
          simp only [joinPairs] at ih ⊢
          rw [ih]
        | cons t ts =>
          simp only [joinPairs] at ih ⊢
          rw [← ih]
          rfl

/-- No pair holds an `&`. -/
theorem splitPairs_no_amp (raw : GoString) : ∀ s ∈ splitPairs raw, 38 ∉ s := by
  induction raw with
  | nil => simp [splitPairs]
  | cons c rest ih =>
    simp only [splitPairs]
    by_cases hc : c = 38
    · rw [if_pos hc]
      intro s hs
      rcases List.mem_cons.mp hs with rfl | hs
      · simp
      · exact ih s hs
    · rw [if_neg hc]
      cases hsp : splitPairs rest with
      | nil => exact absurd hsp (splitPairs_ne_nil rest)
      | cons s ss =>
        rw [hsp] at ih
        intro s' hs'
        rcases List.mem_cons.mp hs' with rfl | hs'
        · intro hmem
          rcases List.mem_cons.mp hmem with h | h
          · exact hc h.symm
          · exact ih s (List.mem_cons_self _ _) h
        · exact ih s' (List.mem_cons_of_mem _ hs')

/-- The error of the loop does not depend on the values so far. -/
theorem runQuery_error_of_values : ∀ (n : Nat) (query : GoString) (m : Values) (err : Option error),
    query.length ≤ n → (runQuery m err query).2 = (runQuery [] err query).2 := by
  intro n
  induction n with
  | zero =>
    intro query m err h
    have : query = [] := List.length_eq_zero.mp (Nat.le_zero.mp h)
    subst this
    simp [runQuery_nil]
  | succ n ih =>
    intro query m err h
    by_cases hnil : query = []
    · subst hnil; simp [runQuery_nil]
    · have hcut := Cut_length 38 query
      have hpos : 0 < query.length := List.length_pos.mpr hnil
      have hstep : (pairStep m err (Cut 38 query).1).2 = (pairStep [] err (Cut 38 query).1).2 := by
        unfold pairStep
        by_cases h1 : 59 ∈ (Cut 38 query).1
        · simp [h1]
        · by_cases h2 : (Cut 38 query).1 = []
          · simp [h2]
          · simp only [if_neg h1, if_neg h2]
            cases QueryUnescape (Cut 61 (Cut 38 query).1).1 with
            | error e => rfl
            | ok k =>
              cases QueryUnescape (Cut 61 (Cut 38 query).1).2.1 with
              | error e => rfl
              | ok v => rfl
      rw [runQuery_step m err query hnil, runQuery_step [] err query hnil,
        ih _ _ _ (by omega), ih _ (pairStep [] err _).1 _ (by omega), hstep]

/-- `a&b` is well-formed exactly when `a` and `b` are. -/
theorem parsePairs_error_append (a b : GoString) :
    (parsePairs (a ++ 38 :: b)).2 = none ↔ (parsePairs a).2 = none ∧ (parsePairs b).2 = none := by
  rw [parsePairs_eq, parsePairs_eq, parsePairs_eq, runQuery_append a.length a b [] none le_rfl,
    runQuery_error_of_values b.length b _ _ le_rfl]
  constructor
  · intro h
    by_cases ha : (runQuery [] none a).2 = none
    · rw [ha] at h
      exact ⟨ha, h⟩
    · exact absurd h (runQuery_error_persists b.length b _ _ le_rfl ha)
  · rintro ⟨ha, hb⟩
    rw [ha]
    exact hb

/-- A query is well-formed exactly when its pairs are. -/
theorem parsePairs_error_joinPairs (pairs : List GoString) :
    (parsePairs (joinPairs pairs)).2 = none ↔ ∀ s ∈ pairs, (parsePairs s).2 = none := by
  induction pairs with
  | nil => simp [joinPairs]; rfl
  | cons s ss ih =>
    cases ss with
    | nil => simp [joinPairs]
    | cons t rest =>
      rw [joinPairs_cons _ _ (List.cons_ne_nil _ _), parsePairs_error_append, ih]
      simp

/-- The values of a query are the values of its pairs, in order. -/
theorem Query_joinPairs (pairs : List GoString) :
    (parsePairs (joinPairs pairs)).1 = pairs.flatMap fun s => (parsePairs s).1 := by
  induction pairs with
  | nil => rfl
  | cons s ss ih =>
    cases ss with
    | nil => simp [joinPairs]
    | cons t rest =>
      rw [joinPairs_cons _ _ (List.cons_ne_nil _ _), Query_append, ih]
      simp

/-- The separators of two texts. -/
theorem Count_append (sep : Nat) (a b : GoString) :
    Count sep (a ++ b) = Count sep a + Count sep b := by
  induction a with
  | nil => simp [Count]
  | cons c rest ih =>
    rw [List.cons_append, Count, Count, ih]
    omega

/-- A text without the separator counts none. -/
theorem Count_of_not_mem (sep : Nat) (s : GoString) (h : sep ∉ s) : Count sep s = 0 := by
  induction s with
  | nil => rfl
  | cons c rest ih =>
    have hc : c ≠ sep := fun hh => h (by simp [hh])
    have hrest : sep ∉ rest := fun hh => h (List.mem_cons_of_mem _ hh)
    simp [Count, hc, ih hrest]

/-- A query has one more pair than it has `&`: the number that
`url.parseQuery` holds against the limit. -/
theorem length_splitPairs (raw : GoString) : (splitPairs raw).length = Count 38 raw + 1 := by
  induction raw with
  | nil => rfl
  | cons c rest ih =>
    simp only [splitPairs, Count]
    by_cases hc : c = 38
    · rw [if_pos hc, if_pos hc, List.length_cons, ih]
      omega
    · rw [if_neg hc, if_neg hc]
      cases hs : splitPairs rest with
      | nil => exact absurd hs (splitPairs_ne_nil rest)
      | cons t ts =>
        rw [hs] at ih
        simp only [List.length_cons] at ih ⊢
        omega

/-- Joined pairs have fewer `&` than there are pairs. -/
theorem Count_joinPairs (pairs : List GoString) (h : ∀ s ∈ pairs, 38 ∉ s) :
    Count 38 (joinPairs pairs) ≤ pairs.length - 1 := by
  induction pairs with
  | nil => simp [joinPairs, Count]
  | cons s ss ih =>
    have hs := Count_of_not_mem 38 s (h s (List.mem_cons_self _ _))
    cases ss with
    | nil => simp [joinPairs, hs]
    | cons t rest =>
      have ih2 := ih (fun s' hs' => h s' (List.mem_cons_of_mem _ hs'))
      rw [joinPairs_cons _ _ (List.cons_ne_nil _ _), Count_append, hs]
      simp only [Count, if_true, List.length_cons] at ih2 ⊢
      omega

/-- Within the limit on the number of pairs, `url.ParseQuery` is the loop. -/
theorem ParseQuery_within (query : GoString) (h : Count 38 query + 1 ≤ defaultMaxParams) :
    ParseQuery query = parsePairs query := by
  unfold ParseQuery parseQuery urlParamsWithinMax
  rw [if_pos (by simpa using h)]
  rfl

/-- Beyond the limit, `url.ParseQuery` returns no value and the limit error. -/
theorem ParseQuery_beyond (query : GoString) (h : defaultMaxParams < Count 38 query + 1) :
    ParseQuery query = ([], some error.paramLimit) := by
  unfold ParseQuery parseQuery urlParamsWithinMax
  rw [if_neg (by simpa using h)]

/-- A single pair is within the limit. -/
theorem ParseQuery_pair (s : GoString) (h : 38 ∉ s) : ParseQuery s = parsePairs s := by
  apply ParseQuery_within
  rw [Count_of_not_mem 38 s h]
  decide

/-- Malformed pairs add no values. -/
theorem flatMap_filter_wellFormed (pairs : List GoString) (h : ∀ s ∈ pairs, 38 ∉ s) :
    ((pairs.filter wellFormedPair).flatMap fun s => (parsePairs s).1) =
      pairs.flatMap fun s => (parsePairs s).1 := by
  induction pairs with
  | nil => rfl
  | cons s ss ih =>
    have ih2 := ih (fun s' hs' => h s' (List.mem_cons_of_mem _ hs'))
    by_cases hw : wellFormedPair s = true
    · rw [List.filter_cons_of_pos hw, List.flatMap_cons, List.flatMap_cons, ih2]
    · have hbad : (parsePairs s).2 ≠ none := by
        rw [← ParseQuery_pair s (h s (List.mem_cons_self _ _))]
        simpa [wellFormedPair] using hw
      rw [List.filter_cons_of_neg hw, List.flatMap_cons, ih2,
        parsePairs_malformed_pair s (h s (List.mem_cons_self _ _)) hbad, List.nil_append]

/-- A key without value in every pair has no value in the query. -/
theorem index_flatMap (pairs : List GoString) (key : GoString)
    (h : ∀ s ∈ pairs, (parsePairs s).1.index key = []) :
    Values.index (pairs.flatMap fun s => (parsePairs s).1) key = [] := by
  induction pairs with
  | nil => rfl
  | cons s ss ih =>
    have h1 := h s (List.mem_cons_self _ _)
    have h2 := ih (fun s' hs' => h s' (List.mem_cons_of_mem _ hs'))
    unfold Values.index at h1 h2 ⊢
    rw [List.flatMap_cons, List.filter_append, List.map_append, h1, h2]
    rfl

/-! ## The handlers, case by case -/

/-- The body of the list handler on a fresh writer. -/
theorem list_body (db : database) (req : Request) :
    (database.list db [] req).2.body =
      (db.map fun e => (e.1 ++ lit ": $" ++ fmtFloat e.2 2) ++ [10]).flatten := by
  unfold database.list
  simp only [foldl_Fprintf, List.nil_append]
  have h : (db.map fun e => Call.Write (e.1 ++ lit ": " ++ e.2.String ++ lit "\n")) =
      (db.map fun e => (e.1 ++ lit ": $" ++ fmtFloat e.2 2) ++ [10]).map Call.Write := by
    rw [List.map_map]
    apply List.map_congr_left
    intro e _
    have h1 : lit ": " = [58, 32] := by decide
    have h2 : lit ": $" = [58, 32, 36] := by decide
    have h3 : lit "$" = [36] := by decide
    have h4 : lit "\n" = [10] := by decide
    simp [dollars.String, h1, h2, h3, h4]
  rw [h, body_writes]

/-- The line of an entry has no newline unless the item name has one. -/
theorem entry_line_no_newline (e : GoString × dollars) (h : 10 ∉ e.1) :
    10 ∉ e.1 ++ lit ": $" ++ fmtFloat e.2 2 := by
  have hs := String_no_newline e.2
  have h3 : lit "$" = [36] := by decide
  have h2 : lit ": $" = [58, 32, 36] := by decide
  rw [dollars.String, h3] at hs
  rw [h2]
  intro hm
  simp only [List.mem_append, List.mem_cons, List.mem_singleton, List.not_mem_nil,
    or_false] at hm hs
  rcases hm with (hm | hm) | hm
  · exact h hm
  · omega
  · exact hs (Or.inr hm)

/-- The price handler on an absent key. -/
theorem price_none (table : Nat → Bool) (db : database) (w : ResponseWriter) (req : Request)
    (h : db.get (req.URL.Query.Get (lit "item")) = none) :
    database.price table db w req =
      (db, w ++ [Call.WriteHeader 404, Call.Write (lit "No such item: " ++
        Quote table (req.URL.Query.Get (lit "item")) ++ lit "\n")]) := by
  unfold database.price
  simp only [h]
  simp [Fprintf, ResponseWriter.WriteHeader, StatusNotFound]

/-- The price handler on a present key. -/
theorem price_some (table : Nat → Bool) (db : database) (w : ResponseWriter) (req : Request)
    (p : dollars) (h : db.get (req.URL.Query.Get (lit "item")) = some p) :
    database.price table db w req = (db, w ++ [Call.Write (p.String ++ lit "\n")]) := by
  unfold database.price
  simp only [h]
  simp [Fprintf]

/-- The price handler reads nothing of the request but its parsed query. -/
theorem price_congr (table : Nat → Bool) (db : database) (w : ResponseWriter) (req req' : Request)
    (h : req.URL.Query = req'.URL.Query) :
    database.price table db w req = database.price table db w req' := by
  unfold database.price
  rw [h]

/-! ## The model on sample inputs -/

/-- The constants of `main` are the float32 values fifty and four. -/
theorem ofConst_samples :
    (dollars.ofConst 50).bits = 0x42480000 ∧ (dollars.ofConst 50).magnitude = 50 ∧
    (dollars.ofConst 50).neg = false ∧
    (dollars.ofConst 4).bits = 0x40800000 ∧ (dollars.ofConst 4).magnitude = 4 ∧
    (dollars.ofConst 4).neg = false := by
  refine ⟨by decide, ?_, by decide, by decide, ?_, by decide⟩
  · have h1 : (dollars.ofConst 50).mant = 13107200 := by decide
    have h2 : (dollars.ofConst 50).exp = 132 := by decide
    rw [dollars.magnitude, h1, h2]
    norm_num
  · have h1 : (dollars.ofConst 4).mant = 8388608 := by decide
    have h2 : (dollars.ofConst 4).exp = 129 := by decide
    rw [dollars.magnitude, h1, h2]
    norm_num

/-- `%.2f` on float32 values: one eighth and three eighths (ties, to the even
digit), the float32 nearest to 0.005 (below it), minus fifty, minus zero, the
largest finite value, the smallest positive value. -/
theorem String_samples :
    dollars.String ⟨0x3E000000⟩ = lit "$0.12" ∧ dollars.String ⟨0x3EC00000⟩ = lit "$0.38" ∧
    dollars.String ⟨0x3BA3D70A⟩ = lit "$0.00" ∧ dollars.String ⟨0xC2480000⟩ = lit "$-50.00" ∧
    dollars.String ⟨0x80000000⟩ = lit "$-0.00" ∧
    dollars.String ⟨0x7F7FFFFF⟩ = lit "$340282346638528859811704183484516925440.00" ∧
    dollars.String ⟨1⟩ = lit "$0.00" := by
  decide

/-- `url.ParseQuery` on a query with a repeated key, an invalid escape, a
semicolon, an empty key and a key without value. -/
theorem ParseQuery_sample :
    ParseQuery (lit "a=1&b=%zz&c;d&a=2&=3&x&&y=%41+b") =
      ([(lit "a", lit "1"), (lit "a", lit "2"), (lit "", lit "3"), (lit "x", lit ""),
        (lit "y", lit "A b")], some error.semicolon) := by
  decide

/-- The `&` of `n` copies of a text that starts with `&` and has no other. -/
theorem Count_replicate (n : Nat) (s : GoString) (h : 38 ∉ s) :
    Count 38 (List.replicate n (38 :: s)).flatten = n := by
  induction n with
  | zero => rfl
  | succ n ih =>
    rw [List.replicate_succ, List.flatten_cons, Count_append, ih, Count,
      Count_of_not_mem 38 s h]
    simp
    omega

/-- A query without values is answered as item = `""`: on the catalog of
`main`, with status 404. -/
theorem price_of_no_values (table : Nat → Bool) (raw : GoString) (e : Option error)
    (hq : ParseQuery raw = ([], e)) :
    (database.price table mainDb [] ⟨⟨raw⟩⟩).2 =
      [Call.WriteHeader 404, Call.Write (lit "No such item: \"\"\n")] := by
  have hget : (URL.Query ⟨raw⟩).Get (lit "item") = [] := by
    unfold URL.Query
    rw [hq]
    rfl
  rw [price_none table mainDb [] _ (by rw [hget]; decide), hget]
  rfl

/-- `url.ParseQuery` on `item=shoes` followed by ten thousand times `&%zz`,
10001 pairs: no value and the limit error, so that on the catalog of `main`
the price handler answers as for item = `""`. -/
theorem ParseQuery_limit_sample (table : Nat → Bool) :
    ParseQuery (lit "item=shoes" ++ (List.replicate 10000 (38 :: lit "%zz")).flatten) =
      ([], some error.paramLimit) ∧
    (database.price table mainDb []
        ⟨⟨lit "item=shoes" ++ (List.replicate 10000 (38 :: lit "%zz")).flatten⟩⟩).2 =
      [Call.WriteHeader 404, Call.Write (lit "No such item: \"\"\n")] := by
  have hq : ParseQuery (lit "item=shoes" ++ (List.replicate 10000 (38 :: lit "%zz")).flatten) =
      ([], some error.paramLimit) := by
    apply ParseQuery_beyond
    rw [Count_append, Count_replicate 10000 (lit "%zz") (by decide),
      Count_of_not_mem 38 (lit "item=shoes") (by decide)]
    decide
  exact ⟨hq, price_of_no_values table _ _ hq⟩

/-- `strconv.Quote` on a key holding the euro sign (three bytes, printable
when the table says so), an invalid byte, a tab and a DEL. -/
theorem Quote_sample :
    Quote (fun _ => true) [0xE2, 0x82, 0xAC, 0xFF, 9, 0x7F] = lit "\"€\\xff\\t\\x7f\"" ∧
    Quote (fun _ => false) [0xE2, 0x82, 0xAC] = lit "\"\\u20ac\"" := by
  decide

/-! ## The claims -/

/-- C1, counterexample: the key `"` is absent from the catalog of `main`, and
the body of the 404 response to `item=%22` is not `No such item: "` + key +
`"` + newline (the key is written `\"`). -/
theorem price_absent_key_is_escaped :
    mainDb.get [34] = none ∧
    (request "item=%22").URL.Query.Get (lit "item") = [34] ∧
    (database.price (fun _ => true) mainDb [] (request "item=%22")).2.status = 404 ∧
    (database.price (fun _ => true) mainDb [] (request "item=%22")).2.body ≠
      lit "No such item: \"" ++ [34] ++ lit "\"\n" ∧
    (database.price (fun _ => true) mainDb [] (request "item=%22")).2.body =
      lit "No such item: \"\\\"\"\n" := by
  decide

/-- C1, amended: for every catalog and every key `k` absent from it, the
price handler called with item = `k` calls `WriteHeader(404)` and then writes
exactly `No such item: ` + `strconv.Quote(k)` + newline.  `Quote(k)` is `"` +
`k` unchanged + `"` when every byte of `k` is a printable ASCII character
other than `"` and `\`; in a key of ASCII bytes each byte is written as
`appendEscapedRune` escapes it: `"` as `\"`, `\` as `\\`, newline as `\n`, the
byte 1 as `\x01`. -/
theorem price_absent_writes_quoted_key (table : Nat → Bool) (db : database)
    (w : ResponseWriter) (req : Request) (k : GoString)
    (hk : req.URL.Query.Get (lit "item") = k) (habsent : db.get k = none) :
    database.price table db w req =
      (db, w ++ [Call.WriteHeader 404,
        Call.Write (lit "No such item: " ++ Quote table k ++ lit "\n")]) ∧
    (database.price table db [] req).2.status = 404 ∧
    (database.price table db [] req).2.body =
      lit "No such item: " ++ Quote table k ++ lit "\n" ∧
    ((∀ c ∈ k, 32 ≤ c ∧ c ≤ 126 ∧ c ≠ 34 ∧ c ≠ 92) → Quote table k = 34 :: k ++ [34]) ∧
    ((∀ c ∈ k, c < 128) → Quote table k = 34 :: k.flatMap (appendEscapedRune table) ++ [34]) ∧
    appendEscapedRune table 34 = [92, 34] ∧ appendEscapedRune table 92 = [92, 92] ∧
    appendEscapedRune table 10 = [92, 110] ∧ appendEscapedRune table 1 = [92, 120, 48, 49] := by
  have hprice : ∀ w : ResponseWriter, database.price table db w req =
      (db, w ++ [Call.WriteHeader 404,
        Call.Write (lit "No such item: " ++ Quote table k ++ lit "\n")]) := by
    intro w
    unfold database.price
    simp only [hk, habsent]
    simp [Fprintf, ResponseWriter.WriteHeader, StatusNotFound]
  refine ⟨hprice w, ?_, ?_, ?_, ?_, rfl, rfl, rfl, rfl⟩
  · rw [hprice]; rfl
  · rw [hprice]
    simp [ResponseWriter.body]
  · intro h
    simp [Quote, quoteLoop_printable table k h]
  · intro h
    simp [Quote, quoteLoop_ascii table k h]

/-- C1, witness: the key `hat` in the catalog of `main`. -/
theorem price_absent_writes_quoted_key_witness :
    (database.price (fun _ => true) mainDb [] (request "item=hat")).2.body =
      lit "No such item: " ++ Quote (fun _ => true) (lit "hat") ++ lit "\n" :=
  (price_absent_writes_quoted_key (fun _ => true) mainDb [] (request "item=hat") (lit "hat")
    (by decide) (by decide)).2.2.1

/-- C2: for every catalog and every key `k` present in it with price `p`, the
price handler called with item = `k` makes one call on the response writer,
the write of `$` + the `%.2f` rendering of `p` + newline: no `WriteHeader`
call, so the status is the implicit 200. -/
theorem price_present_writes_price (table : Nat → Bool) (db : database)
    (w : ResponseWriter) (req : Request) (k : GoString) (p : dollars)
    (hk : req.URL.Query.Get (lit "item") = k) (hpresent : db.get k = some p) :
    database.price table db w req = (db, w ++ [Call.Write (36 :: fmtFloat p 2 ++ [10])]) ∧
    (database.price table db [] req).2.headerCalls = [] ∧
    (database.price table db [] req).2.status = 200 ∧
    (database.price table db [] req).2.body = 36 :: fmtFloat p 2 ++ [10] := by
  have hprice : ∀ w : ResponseWriter, database.price table db w req =
      (db, w ++ [Call.Write (36 :: fmtFloat p 2 ++ [10])]) := by
    intro w
    unfold database.price
    simp only [hk, hpresent]
    have h36 : lit "$" = [36] := by decide
    have h10 : lit "\n" = [10] := by decide
    simp [Fprintf, dollars.String, h36, h10]
  refine ⟨hprice w, ?_, ?_, ?_⟩
  · rw [hprice]; rfl
  · rw [hprice]; rfl
  · rw [hprice]
    simp [ResponseWriter.body]

/-- C2, witness: the key `shoes` in the catalog of `main`. -/
theorem price_present_writes_price_witness :
    (database.price (fun _ => true) mainDb [] (request "item=shoes")).2.body =
      36 :: fmtFloat (dollars.ofConst 50) 2 ++ [10] :=
  (price_present_writes_price (fun _ => true) mainDb [] (request "item=shoes") (lit "shoes")
    (dollars.ofConst 50) (by decide) (by decide)).2.2.2

/-- C3, counterexample: a well-formed catalog of one entry whose item name
contains a newline, for which the body of the list handler has two lines. -/
theorem list_newline_in_item_splits_line :
    database.WellFormed [(lit "a\nb", dollars.ofConst 4)] ∧
    lines (database.list [(lit "a\nb", dollars.ofConst 4)] [] (request "")).2.body =
      [lit "a", lit "b: $4.00"] ∧
    (lines (database.list [(lit "a\nb", dollars.ofConst 4)] [] (request "")).2.body).length ≠
      List.length [(lit "a\nb", dollars.ofConst 4)] := by
  refine ⟨?_, by decide, by decide⟩
  unfold database.WellFormed
  decide

/-- C3, amended: for every catalog whose item names contain no newline (a
colon is allowed), the list handler makes one write per entry, of item +
`: $` + the `%.2f` rendering of the price + newline, and no other call; the
lines of the body are exactly the texts item + `: $` + price, one line per
entry, and for every order `db'` of the same entries they are the entries'
texts up to order. -/
theorem list_lines_of_entries (db : database) (req : Request)
    (hitems : ∀ e ∈ db, 10 ∉ e.1) :
    (database.list db [] req).2 =
      db.map (fun e => Call.Write (e.1 ++ lit ": $" ++ fmtFloat e.2 2 ++ [10])) ∧
    lines (database.list db [] req).2.body =
      db.map (fun e => e.1 ++ lit ": $" ++ fmtFloat e.2 2) ∧
    (lines (database.list db [] req).2.body).length = db.length ∧
    (∀ db' : database, db'.Perm db →
      (lines (database.list db [] req).2.body).Perm
        (db'.map fun e => e.1 ++ lit ": $" ++ fmtFloat e.2 2)) ∧
    (∀ l, l ∈ lines (database.list db [] req).2.body ↔
      ∃ e ∈ db, l = e.1 ++ lit ": $" ++ fmtFloat e.2 2) := by
  have hl : lines (database.list db [] req).2.body =
      db.map (fun e => e.1 ++ lit ": $" ++ fmtFloat e.2 2) := by
    rw [list_body]
    have := lines_flatten (db.map fun e => e.1 ++ lit ": $" ++ fmtFloat e.2 2) (by
      intro l hl
      obtain ⟨e, he, rfl⟩ := List.mem_map.mp hl
      exact entry_line_no_newline e (hitems e he))
    rw [List.map_map] at this
    exact this
  refine ⟨?_, hl, ?_, ?_, ?_⟩
  · unfold database.list
    simp only [foldl_Fprintf, List.nil_append]
    apply List.map_congr_left
    intro e _
    have h1 : lit ": " = [58, 32] := by decide
    have h2 : lit ": $" = [58, 32, 36] := by decide
    have h3 : lit "$" = [36] := by decide
    have h4 : lit "\n" = [10] := by decide
    simp [dollars.String, h1, h2, h3, h4]
  · rw [hl, List.length_map]
  · intro db' hperm
    rw [hl]
    exact (hperm.map _).symm
  · intro l
    rw [hl, List.mem_map]
    constructor
    · rintro ⟨e, he, rfl⟩; exact ⟨e, he, rfl⟩
    · rintro ⟨e, he, rfl⟩; exact ⟨e, he, rfl⟩

/-- C3, witness: the catalog of `main`. -/
theorem list_lines_of_entries_witness :
    lines (database.list mainDb [] (request "")).2.body =
      mainDb.map (fun e => e.1 ++ lit ": $" ++ fmtFloat e.2 2) :=
  (list_lines_of_entries mainDb (request "") (by decide)).2.1

/-- C4: for every catalog, response writer and request, the index handler
makes one call, the write of the ten bytes `Status: OK` (no newline); on a
fresh writer the status is the implicit 200, and the calls are the same for
any two catalogs and any two requests. -/
theorem index_writes_status_ok (db db' : database) (w : ResponseWriter) (req req' : Request) :
    index db w req = (db, w ++ [Call.Write (lit "Status: OK")]) ∧
    (index db [] req).2.status = 200 ∧
    (index db [] req).2.headerCalls = [] ∧
    (index db [] req).2.body = [83, 116, 97, 116, 117, 115, 58, 32, 79, 75] ∧
    (index db [] req).2 = (index db' [] req').2 :=
  ⟨rfl, rfl, rfl, rfl, rfl⟩

/-- C5, counterexample: the price NaN renders as `$NaN` and positive infinity
as `$+Inf`, texts without a decimal point and without digits. -/
theorem dollars_String_of_NaN :
    dollars.String ⟨0x7FC00000⟩ = lit "$NaN" ∧ 46 ∉ dollars.String ⟨0x7FC00000⟩ ∧
    dollars.String ⟨0x7F800000⟩ = lit "$+Inf" ∧ 46 ∉ dollars.String ⟨0x7F800000⟩ := by
  decide

/-- C5, amended: for every finite price `d` (every float32 that is a number),
`d.String()` is `$`, a `-` when the sign bit is set, a non-empty run of decimal digits without a superfluous leading
zero, a point, and exactly two decimal digits; the number written differs
from the magnitude of `d` by at most half a hundredth.  The prices `50` and
`4` render as `$50.00` and `$4.00`. -/
theorem dollars_String_two_decimals (d : dollars) (hfinite : d.isFinite = true) :
    (∃ (ip : GoString) (a b : Nat),
      d.String = 36 :: ((if d.neg then [45] else []) ++ ip ++ [46, a, b]) ∧
      ip ≠ [] ∧ (∀ c ∈ ip ++ [a, b], 48 ≤ c ∧ c ≤ 57) ∧
      (ip.head? = some 48 → ip = [48]) ∧
      |((readDecimal (ip ++ [a, b]) : Nat) : ℚ) / 100 - d.magnitude| ≤ 1 / 200) ∧
    (dollars.ofConst 50).String = lit "$50.00" ∧
    (dollars.ofConst 4).String = lit "$4.00" := by
  refine ⟨?_, by decide, by decide⟩
  obtain ⟨hne, hdig, hval, hzero⟩ := decimalDigits_spec (hundredths d / 100)
  refine ⟨decimalDigits (hundredths d / 100), 48 + hundredths d % 100 / 10 % 10,
    48 + hundredths d % 100 % 10, ?_, hne, ?_, ?_, ?_⟩
  · have h36 : lit "$" = [36] := by decide
    rw [dollars.String, fmtFloat_finite d hfinite, h36]
    rfl
  · intro c hc
    simp only [List.mem_append, List.mem_cons, List.mem_singleton, List.not_mem_nil,
      or_false] at hc
    rcases hc with hc | hc | hc
    · exact hdig c hc
    · omega
    · omega
  · intro h
    have h0 := hzero h
    rw [h0]
    decide
  · have hread : readDecimal (decimalDigits (hundredths d / 100) ++
        [48 + hundredths d % 100 / 10 % 10, 48 + hundredths d % 100 % 10]) = hundredths d := by
      have : decimalDigits (hundredths d / 100) ++
          [48 + hundredths d % 100 / 10 % 10, 48 + hundredths d % 100 % 10] =
          (decimalDigits (hundredths d / 100) ++ [48 + hundredths d % 100 / 10 % 10]) ++
            [48 + hundredths d % 100 % 10] := by simp
      rw [this, readDecimal_append_singleton, readDecimal_append_singleton, hval]
      omega
    rw [hread]
    obtain ⟨h1, h2⟩ := roundHalfEven_spec (d.mant * 2 ^ d.exp * 10 ^ 2) (2 ^ 150) (by positivity)
    have hacc := round_accuracy (d.mant * 2 ^ d.exp) (hundredths d) (2 ^ 150) (by positivity) h1 h2
    have hm : d.magnitude = ((d.mant * 2 ^ d.exp : ℕ) : ℚ) / ((2 ^ 150 : ℕ) : ℚ) := by
      unfold dollars.magnitude
      rw [Nat.cast_mul, Nat.cast_pow, Nat.cast_pow, Nat.cast_ofNat]
    rw [hm]
    exact hacc

/-- C5, witness: the price `50` of `main`. -/
theorem dollars_String_two_decimals_witness :
    (dollars.ofConst 50).isFinite = true ∧ (dollars.ofConst 50).String = lit "$50.00" :=
  ⟨by decide, (dollars_String_two_decimals (dollars.ofConst 50) (by decide)).2.1⟩

/-- C6: for every catalog, a price request whose query has no `item`
parameter gets the same calls as a price request whose `item` is the empty
string: the write of the price of the entry `""` and no `WriteHeader` when the
catalog has the key `""`, and otherwise `WriteHeader(404)` and the write of
`No such item: ""` + newline. -/
theorem price_missing_item_is_empty_key (table : Nat → Bool) (db : database)
    (w : ResponseWriter) (req req' : Request)
    (hmissing : req.URL.Query.index (lit "item") = [])
    (hempty : req'.URL.Query.Get (lit "item") = []) :
    database.price table db w req = database.price table db w req' ∧
    (∀ p, db.get [] = some p →
      database.price table db w req = (db, w ++ [Call.Write (p.String ++ [10])]) ∧
      (database.price table db [] req).2.status = 200) ∧
    (db.get [] = none →
      database.price table db w req =
        (db, w ++ [Call.WriteHeader 404, Call.Write (lit "No such item: \"\"\n")]) ∧
      (database.price table db [] req).2.status = 404) := by
  have hget : req.URL.Query.Get (lit "item") = [] := by
    unfold Values.Get
    rw [hmissing]
  have h10 : lit "\n" = [10] := by decide
  refine ⟨?_, ?_, ?_⟩
  · cases hd : db.get [] with
    | none =>
      rw [price_none table db w req (by rw [hget]; exact hd),
        price_none table db w req' (by rw [hempty]; exact hd), hget, hempty]
    | some p =>
      rw [price_some table db w req p (by rw [hget]; exact hd),
        price_some table db w req' p (by rw [hempty]; exact hd)]
  · intro p hp
    constructor
    · rw [price_some table db w req p (by rw [hget]; exact hp), h10]
    · rw [price_some table db [] req p (by rw [hget]; exact hp)]; rfl
  · intro hnone
    constructor
    · rw [price_none table db w req (by rw [hget]; exact hnone), hget]; rfl
    · rw [price_none table db [] req (by rw [hget]; exact hnone)]; rfl

/-- C6, witness: the query `color=red` against the query `item=`, on the
catalog of `main`. -/
theorem price_missing_item_is_empty_key_witness :
    database.price (fun _ => true) mainDb [] (request "color=red") =
      database.price (fun _ => true) mainDb [] (request "item=") :=
  (price_missing_item_is_empty_key (fun _ => true) mainDb [] (request "color=red")
    (request "item=") (by decide) (by decide)).1

/-- C7: on the catalog of `main`, in either order of its two entries: the
price of `shoes` is answered with status 200 and `$50.00` + newline, of
`socks` with status 200 and `$4.00` + newline, of `hat` with status 404 and
`No such item: "hat"` + newline; the list has the two lines `shoes: $50.00`
and `socks: $4.00` in some order; the index answers status 200 and
`Status: OK`. -/
theorem main_catalog_scenario (table : Nat → Bool) (db : database) (req : Request)
    (hdb : db.Perm mainDb) :
    ((database.price table db [] (request "item=shoes")).2.status = 200 ∧
      (database.price table db [] (request "item=shoes")).2.body = lit "$50.00\n") ∧
    ((database.price table db [] (request "item=socks")).2.status = 200 ∧
      (database.price table db [] (request "item=socks")).2.body = lit "$4.00\n") ∧
    ((database.price table db [] (request "item=hat")).2.status = 404 ∧
      (database.price table db [] (request "item=hat")).2.body =
        lit "No such item: \"hat\"\n") ∧
    (lines (database.list db [] req).2.body).Perm [lit "shoes: $50.00", lit "socks: $4.00"] ∧
    ((index db [] req).2.status = 200 ∧ (index db [] req).2.body = lit "Status: OK") := by
  rcases perm_pair _ _ db hdb with h | h
  · subst h
    refine ⟨⟨rfl, rfl⟩, ⟨rfl, rfl⟩, ⟨rfl, rfl⟩, ?_, ⟨rfl, rfl⟩⟩
    have : lines (database.list
        [(lit "shoes", dollars.ofConst 50), (lit "socks", dollars.ofConst 4)] [] req).2.body =
        [lit "shoes: $50.00", lit "socks: $4.00"] := rfl
    rw [this]
  · subst h
    refine ⟨⟨rfl, rfl⟩, ⟨rfl, rfl⟩, ⟨rfl, rfl⟩, ?_, ⟨rfl, rfl⟩⟩
    have : lines (database.list
        [(lit "socks", dollars.ofConst 4), (lit "shoes", dollars.ofConst 50)] [] req).2.body =
        [lit "socks: $4.00", lit "shoes: $50.00"] := rfl
    rw [this]
    exact List.Perm.swap _ _ _

/-- C7, witness: the entries in the order of the map literal. -/
theorem main_catalog_scenario_witness :
    (database.price (fun _ => true) mainDb [] (request "item=hat")).2.status = 404 ∧
      (database.price (fun _ => true) mainDb [] (request "item=hat")).2.body =
        lit "No such item: \"hat\"\n" :=
  (main_catalog_scenario (fun _ => true) mainDb (request "") (List.Perm.refl _)).2.2.1

/-- C8: for every catalog, response writer and request, each of the three
handlers returns the catalog it was given, and its response writer is the one
it was given followed by the handler's own calls. -/
theorem handlers_leave_catalog_unchanged (table : Nat → Bool) (db : database)
    (w : ResponseWriter) (req : Request) :
    ((index db w req).1 = db ∧ ∃ calls, (index db w req).2 = w ++ calls) ∧
    ((database.list db w req).1 = db ∧ ∃ calls, (database.list db w req).2 = w ++ calls) ∧
    ((database.price table db w req).1 = db ∧
      ∃ calls, (database.price table db w req).2 = w ++ calls) := by
  refine ⟨⟨rfl, [Call.Write (lit "Status: OK")], rfl⟩, ⟨rfl, ?_⟩, ?_⟩
  · unfold database.list
    exact ⟨_, foldl_Fprintf _ db w⟩
  · cases hd : db.get (req.URL.Query.Get (lit "item")) with
    | none => rw [price_none table db w req hd]; exact ⟨rfl, _, rfl⟩
    | some p => rw [price_some table db w req p hd]; exact ⟨rfl, _, rfl⟩

/-- C9, counterexample: the raw query `item=shoes&x=%zz` is malformed, and on
the catalog of `main` it is answered with the price of `shoes`, not as
item = `""`. -/
theorem price_malformed_query_keeps_item :
    (ParseQuery (lit "item=shoes&x=%zz")).2 = some (error.EscapeError (lit "%zz")) ∧
    (database.price (fun _ => true) mainDb [] (request "item=shoes&x=%zz")).2 =
      [Call.Write (lit "$50.00\n")] ∧
    (database.price (fun _ => true) mainDb [] (request "item=")).2 =
      [Call.WriteHeader 404, Call.Write (lit "No such item: \"\"\n")] ∧
    (database.price (fun _ => true) mainDb [] (request "item=shoes&x=%zz")).2 ≠
      (database.price (fun _ => true) mainDb [] (request "item=")).2 := by
  decide

/-- C9, amended: for every catalog and every price request whose raw query
string is malformed (`url.ParseQuery` reports an error).  When the query has
more than 10000 `&`-separated pairs, no pair is read and the handler answers
exactly as for item = `""`.  When it has at most 10000 pairs, at least one of
them is malformed, and the malformed pairs are skipped: the handler answers
exactly as for the query made of the well-formed pairs alone, so a
well-formed `item=<name>` pair next to a malformed part is still looked up;
it answers exactly as for item = `""` when no well-formed pair has the key
`item`. -/
theorem price_skips_malformed_pairs (table : Nat → Bool) (db : database)
    (w : ResponseWriter) (raw : GoString) (hmalformed : (ParseQuery raw).2 ≠ none) :
    (10000 < (splitPairs raw).length →
      database.price table db w ⟨⟨raw⟩⟩ = database.price table db w (request "item=")) ∧
    ((splitPairs raw).length ≤ 10000 →
      (∃ s ∈ splitPairs raw, wellFormedPair s = false) ∧
      database.price table db w ⟨⟨raw⟩⟩ =
        database.price table db w ⟨⟨joinPairs ((splitPairs raw).filter wellFormedPair)⟩⟩ ∧
      ((∀ s ∈ splitPairs raw, wellFormedPair s = true →
          (ParseQuery s).1.index (lit "item") = []) →
        database.price table db w ⟨⟨raw⟩⟩ = database.price table db w (request "item="))) := by
  have hempty : (request "item=").URL.Query.Get (lit "item") = [] := by decide
  constructor
  · intro hmany
    have hq : ParseQuery raw = ([], some error.paramLimit) := by
      apply ParseQuery_beyond
      rw [← length_splitPairs]
      exact hmany
    have h1 : (URL.Query ⟨raw⟩).Get (lit "item") = [] := by
      unfold URL.Query
      rw [hq]
      rfl
    unfold database.price
    simp only [h1, hempty]
  · intro hfew
    have hraw : ParseQuery raw = parsePairs raw := by
      apply ParseQuery_within
      rw [← length_splitPairs]
      exact hfew
    have hvals : (ParseQuery raw).1 = (splitPairs raw).flatMap fun s => (parsePairs s).1 := by
      rw [hraw, ← Query_joinPairs, joinPairs_splitPairs]
    refine ⟨?_, ?_, ?_⟩
    · by_contra hall
      apply hmalformed
      rw [hraw, ← joinPairs_splitPairs raw, parsePairs_error_joinPairs]
      intro s hs
      rw [← ParseQuery_pair s (splitPairs_no_amp raw s hs)]
      by_contra hbad
      exact hall ⟨s, hs, by simpa [wellFormedPair] using hbad⟩
    · apply price_congr
      have hkept : ∀ s ∈ (splitPairs raw).filter wellFormedPair, 38 ∉ s :=
        fun s hs => splitPairs_no_amp raw s (List.mem_of_mem_filter hs)
      have hcount := Count_joinPairs _ hkept
      have hlen := List.length_filter_le wellFormedPair (splitPairs raw)
      have hjoin : ParseQuery (joinPairs ((splitPairs raw).filter wellFormedPair)) =
          parsePairs (joinPairs ((splitPairs raw).filter wellFormedPair)) := by
        apply ParseQuery_within
        unfold defaultMaxParams
        omega
      simp only [URL.Query]
      rw [hjoin, Query_joinPairs, flatMap_filter_wellFormed _ (splitPairs_no_amp raw), hvals]
    · intro hitem
      have hidx : (ParseQuery raw).1.index (lit "item") = [] := by
        rw [hvals]
        apply index_flatMap
        intro s hs
        by_cases hw : wellFormedPair s = true
        · rw [← ParseQuery_pair s (splitPairs_no_amp raw s hs)]
          exact hitem s hs hw
        · have hbad : (parsePairs s).2 ≠ none := by
            rw [← ParseQuery_pair s (splitPairs_no_amp raw s hs)]
            simpa [wellFormedPair] using hw
          rw [parsePairs_malformed_pair s (splitPairs_no_amp raw s hs) hbad]
          rfl
      have h1 : (URL.Query ⟨raw⟩).Get (lit "item") = [] := by
        unfold URL.Query Values.Get
        rw [hidx]
      unfold database.price
      simp only [h1, hempty]

/-- C9, witness: the pairs `x=%zz` and `a;b` after the pair `item=shoes`. -/
theorem price_skips_malformed_pairs_witness :
    database.price (fun _ => true) mainDb [] (request "item=shoes&x=%zz&a;b") =
      database.price (fun _ => true) mainDb [] (request "item=shoes") :=
  ((price_skips_malformed_pairs (fun _ => true) mainDb [] (lit "item=shoes&x=%zz&a;b")
    (by decide)).2 (by decide)).2.1

/-- C10: for every counter value `c` and every byte slice `p`,
`(*ByteCounter).Write(p)` returns `(len(p), nil)` and leaves `c` as it was; it
appends `test` and a newline to standard output.  In `main` the counter ends
at the 23 it was set to. -/
theorem ByteCounter_Write_returns_len (c : ByteCounter) (stdout p : GoString) :
    (ByteCounter.Write c stdout p).2.2 = ((p.length : Int), none) ∧
    (ByteCounter.Write c stdout p).1 = c ∧
    (ByteCounter.Write c stdout p).2.1 = stdout ++ lit "test\n" ∧
    Interface1.main = (23, lit "test\n") :=
  ⟨rfl, rfl, rfl, by decide⟩

end GoNotes
